import Mathlib

/-!
# Verification of the Polymarket BTC/ETH 15-minute arbitrage core

Shallow embedding of the three core source files (`arbitrage.rs`,
`monitor.rs`, `trader.rs`) of the arbitrage bot, together with proofs of
the testable properties claimed by the design specification.

Conventions of the embedding:
* `rust_decimal::Decimal` values and the `f64` monetary quantities of the
  trader are embedded as `ℚ` (both are exact for the additions,
  subtractions, multiplications, divisions and comparisons the code
  performs on them; no rounding-sensitive operation appears in a claim).
* `std::time::Instant` values are embedded as `ℕ` seconds; `elapsed()`
  becomes truncated subtraction `now - t`.
* `HashMap` values are embedded as association lists with unique keys
  (`alookup`), matching the at-most-one-entry-per-key semantics.
* fallible API calls (`anyhow::Result`) are embedded as `Except String`;
  the external Price Source (`PolymarketApi`) is an oracle parameter.
-/

attribute [local semireducible] Rat.add Rat.sub Rat.mul Rat.inv Rat.ofScientific

/-- Association-list lookup, the embedding of `HashMap::get`. -/
def alookup {β : Type} (key : String) : List (String × β) → Option β
  | [] => none
  | kv :: rest => if kv.1 = key then some kv.2 else alookup key rest

/-- Does the character list `l` begin with the character list `pat`? -/
def charsBeginWith : List Char → List Char → Bool
  | _, [] => true
  | [], _ :: _ => false
  | c :: cs, p :: ps => c == p && charsBeginWith cs ps

/-- Does `l` contain `pat` as a contiguous run of characters? -/
def charsContainSeq : List Char → List Char → Bool
  | [], pat => charsBeginWith [] pat
  | c :: cs, pat => charsBeginWith (c :: cs) pat || charsContainSeq cs pat

/-- Rust `str::contains`, used on uppercased outcome labels in
`monitor.rs::refresh_market_tokens`. -/
def strContainsStr (s pat : String) : Bool :=
  charsContainSeq s.toList pat.toList

/-! ## Data model (spec §3, structs from `models.rs` as consumed by the core) -/

/-- Struct `TokenPrice` (spec §3): a priced instrument snapshot with independently
optional best bid / best ask, built by `monitor.rs::fetch_token_price`. -/
structure TokenPrice where
  token_id : String
  bid : Option ℚ
  ask : Option ℚ
deriving Repr, DecidableEq

/-- One market's slot inside a snapshot (`MarketData`): the condition id
plus up to two `TokenPrice` values. -/
structure MarketData where
  condition_id : String
  market_name : String
  up_token : Option TokenPrice
  down_token : Option TokenPrice
deriving Repr, DecidableEq

/-- Struct `monitor.rs::MarketSnapshot` (the `timestamp` field plays no role in
detection and is embedded as a plain `ℕ`). -/
structure MarketSnapshot where
  eth_market : MarketData
  btc_market : MarketData
  timestamp : ℕ
deriving Repr, DecidableEq

/-- Struct `ArbitrageOpportunity` (spec §3): leg prices, summed cost, expected
profit and the four identifiers needed to act. -/
structure ArbitrageOpportunity where
  eth_up_price : ℚ
  btc_down_price : ℚ
  total_cost : ℚ
  expected_profit : ℚ
  eth_up_token_id : String
  btc_down_token_id : String
  eth_condition_id : String
  btc_condition_id : String
deriving Repr, DecidableEq

/-! ## Opportunity Detector (`arbitrage.rs`) -/

/-- Function `ArbitrageDetector::check_arbitrage` (arbitrage.rs lines 62-103).

The two leg prices are read through `TokenPrice::ask_price`, which is
defined in `models.rs`. Modelled from the spec: `models.rs` is not among
the sources; per the spec ("for each pairing, if either leg lacks a quoted
ask, the pairing is skipped (not an error)"), the ask extraction is
modelled as requiring a present ask on both legs before the arithmetic of
lines 73-100 runs. Everything after the `match` is a literal transcription
of the source: the 0.6 double-rug filter, the `total_cost < 1` check and
the `expected_profit >= min_profit_threshold` check. -/
def check_arbitrage (min_profit_threshold : ℚ) (token1 token2 : TokenPrice)
    (condition1 condition2 : String) : Option ArbitrageOpportunity :=
  match token1.ask, token2.ask with
  | some price1, some price2 =>
    let total_cost := price1 + price2
    let dollar : ℚ := 1
    let min_price_threshold : ℚ := 6/10
    if price1 < min_price_threshold ∧ price2 < min_price_threshold then
      none
    else if total_cost < dollar then
      let expected_profit := dollar - total_cost
      if min_profit_threshold ≤ expected_profit then
        some { eth_up_price := price1
               btc_down_price := price2
               total_cost := total_cost
               expected_profit := expected_profit
               eth_up_token_id := token1.token_id
               btc_down_token_id := token2.token_id
               eth_condition_id := condition1
               btc_condition_id := condition2 }
      else
        none
    else
      none
  | _, _ => none

/-- Strategy 1 of `detect_opportunities` (arbitrage.rs lines 31-43):
ETH Up + BTC Down; contributes the singleton of `check_arbitrage` when
both `TokenPrice` slots are present, else nothing. -/
def strategy_eth_up_btc_down (min_profit_threshold : ℚ)
    (snapshot : MarketSnapshot) : List ArbitrageOpportunity :=
  match snapshot.eth_market.up_token, snapshot.btc_market.down_token with
  | some eth_up_price, some btc_down_price =>
    (check_arbitrage min_profit_threshold eth_up_price btc_down_price
      snapshot.eth_market.condition_id snapshot.btc_market.condition_id).toList
  | _, _ => []

/-- Strategy 2 of `detect_opportunities` (arbitrage.rs lines 45-57):
ETH Down + BTC Up. -/
def strategy_eth_down_btc_up (min_profit_threshold : ℚ)
    (snapshot : MarketSnapshot) : List ArbitrageOpportunity :=
  match snapshot.eth_market.down_token, snapshot.btc_market.up_token with
  | some eth_down_price, some btc_up_price =>
    (check_arbitrage min_profit_threshold eth_down_price btc_up_price
      snapshot.eth_market.condition_id snapshot.btc_market.condition_id).toList
  | _, _ => []

/-- Function `ArbitrageDetector::detect_opportunities` (arbitrage.rs lines 22-60):
the vector of opportunities pushed by the two directional strategies, in
order. -/
def detect_opportunities (min_profit_threshold : ℚ)
    (snapshot : MarketSnapshot) : List ArbitrageOpportunity :=
  strategy_eth_up_btc_down min_profit_threshold snapshot ++
    strategy_eth_down_btc_up min_profit_threshold snapshot

/-! ## Trade Tracker (`trader.rs`): data and position sizing -/

/-- Struct `PendingTrade` (spec §3): accumulated exposure for one
(eth-condition, btc-condition) pair; `timestamp` is the instant of first
creation, in seconds. -/
structure PendingTrade where
  eth_token_id : String
  btc_token_id : String
  eth_condition_id : String
  btc_condition_id : String
  investment_amount : ℚ
  units : ℚ
  timestamp : ℕ
deriving Repr, DecidableEq

/-- One token row of the Price Source `get_market` answer
(`{token_id, outcome, winner}`). -/
structure MarketToken where
  token_id : String
  outcome : String
  winner : Bool
deriving Repr, DecidableEq

/-- Struct `MarketDetails` as consumed by the core: the token rows and the
closed flag. -/
structure MarketDetails where
  tokens : List MarketToken
  closed : Bool
deriving Repr, DecidableEq

/-- Struct `trader.rs::CachedMarketData` (lines 12-16): one market's metadata and
the instant it was fetched. -/
structure CachedMarketData where
  market : MarketDetails
  cached_at : ℕ
deriving Repr, DecidableEq

/-- The mutable state of `Trader` (trader.rs lines 18-26): running profit,
trade counter, pending-trade map and market-result cache. -/
structure TraderState where
  total_profit : ℚ
  trades_executed : ℕ
  pending_trades : List (String × PendingTrade)
  market_cache : List (String × CachedMarketData)
deriving Repr, DecidableEq

/-- The Price Source oracle for `PolymarketApi::get_market`: a fallible
map from condition id to market metadata. -/
def GetMarket : Type := String → Except String MarketDetails

/-- Function `Trader::calculate_position_size` (trader.rs lines 435-455):
`units = max_size / cost_per_unit`, `position_size = min (units * cost)
max_size` (the `f64::try_from` conversion of the exact decimal
`total_cost` is the identity in this embedding). -/
def calculate_position_size (max_size : ℚ) (total_cost : ℚ) : ℚ :=
  let cost_per_unit := total_cost
  let units := max_size / cost_per_unit
  min (units * cost_per_unit) max_size

/-- The unit count computed inside `calculate_position_size` (trader.rs
line 443) and again in `simulate_trade` / `execute_real_trade`
(lines 288, 391): `max or position size divided by cost per unit`. -/
def positionUnits (amount : ℚ) (cost_per_unit : ℚ) : ℚ :=
  amount / cost_per_unit

/-- The units actually recorded by a single execution (trader.rs lines
287-288 / 390-391): position size divided by the opportunity's total
cost. -/
def tradeUnits (max_size : ℚ) (op : ArbitrageOpportunity) : ℚ :=
  positionUnits (calculate_position_size max_size op.total_cost) op.total_cost

/-- The pending-map key (trader.rs lines 300, 394):
`format!("{}_{}", eth_condition_id, btc_condition_id)`. -/
def tradeKey (op : ArbitrageOpportunity) : String :=
  op.eth_condition_id ++ "_" ++ op.btc_condition_id

/-- The shared "accumulate into existing entry or insert new" step of
`simulate_trade` (trader.rs lines 302-323) and `execute_real_trade`
(lines 396-417): on a hit only `units` and `investment_amount` grow; on a
miss a fresh `PendingTrade` is inserted carrying the opportunity's token
and condition ids and the current instant. -/
def recordTrade (pending : List (String × PendingTrade)) (key : String)
    (op : ArbitrageOpportunity) (units position_size : ℚ) (now : ℕ) :
    List (String × PendingTrade) :=
  match alookup key pending with
  | some _ =>
    pending.map fun kv =>
      if kv.1 = key then
        (kv.1, { kv.2 with
                 units := kv.2.units + units
                 investment_amount := kv.2.investment_amount + position_size })
      else kv
  | none =>
    pending ++ [(key,
      { eth_token_id := op.eth_up_token_id
        btc_token_id := op.btc_down_token_id
        eth_condition_id := op.eth_condition_id
        btc_condition_id := op.btc_condition_id
        investment_amount := position_size
        units := units
        timestamp := now })]

/-- Function `Trader::simulate_trade` (trader.rs lines 252-339), restricted to its
state effect: computes the position size and unit count, records or
accumulates the pending trade under the condition-id key, and increments
the trade counter. -/
def simulate_trade (max_size : ℚ) (op : ArbitrageOpportunity) (now : ℕ)
    (s : TraderState) : TraderState :=
  let position_size := calculate_position_size max_size op.total_cost
  let cost_per_unit := op.total_cost
  let units := position_size / cost_per_unit
  let trade_key := tradeKey op
  { s with
    pending_trades := recordTrade s.pending_trades trade_key op units position_size now
    trades_executed := s.trades_executed + 1 }

/-- Function `Trader::execute_real_trade` (trader.rs lines 341-433), restricted to
its state effect: the two BUY orders are fire-and-forget network calls
(modelled in the event-trace section below); the bookkeeping on the
pending map and the counter is literally the same as `simulate_trade`. -/
def execute_real_trade (max_size : ℚ) (op : ArbitrageOpportunity) (now : ℕ)
    (s : TraderState) : TraderState :=
  let position_size := calculate_position_size max_size op.total_cost
  let cost_per_unit := op.total_cost
  let units := position_size / cost_per_unit
  let trade_key := tradeKey op
  { s with
    pending_trades := recordTrade s.pending_trades trade_key op units position_size now
    trades_executed := s.trades_executed + 1 }

/-- Function `Trader::calculate_actual_profit` (trader.rs lines 217-241): payout
per unit is 2 when both legs won, 1 when exactly one won, 0 when neither;
profit is total payout minus invested amount. -/
def calculate_actual_profit (trade : PendingTrade)
    (eth_winner btc_winner : Bool) : ℚ :=
  let payout_per_unit : ℚ :=
    if eth_winner && btc_winner then 2
    else if eth_winner || btc_winner then 1
    else 0
  let total_payout := payout_per_unit * trade.units
  total_payout - trade.investment_amount

/-! ## Trade Tracker: cached market-result lookup and the sweep

The trader's methods are also instrumented with an event trace recording,
in program order, every mutex acquisition/release and every network call
to the Price Source, so that the lock-scoping discipline claimed by the
spec (§5) can be stated and checked against the code's actual `lock()` /
`drop()` / `.await` structure. -/

/-- The four mutex-guarded fields of `Trader` (trader.rs lines 22-25). -/
inductive LockId
  | pendingTrades
  | marketCache
  | totalProfit
  | tradesExecuted
deriving Repr, DecidableEq

/-- One observable event of a trader method: taking a lock, releasing a
lock, or performing a network call against the Price Source. -/
inductive TraceEvent
  | lockEv (l : LockId)
  | unlockEv (l : LockId)
  | networkEv
deriving Repr, DecidableEq

/-- Contribution of one event to the hold-depth of lock `l`. -/
def heldDelta (l : LockId) : TraceEvent → ℤ
  | TraceEvent.lockEv l2 => if l2 = l then 1 else 0
  | TraceEvent.unlockEv l2 => if l2 = l then -1 else 0
  | TraceEvent.networkEv => 0

/-- Is some network event of the trace executed while lock `l` is held
(hold-depth positive), starting from depth `d`? -/
def netWhileHeldFrom (l : LockId) : List TraceEvent → ℤ → Bool
  | [], _ => false
  | e :: es, d =>
    match e with
    | TraceEvent.networkEv => decide (0 < d) || netWhileHeldFrom l es d
    | _ => netWhileHeldFrom l es (d + heldDelta l e)

/-- A network call occurs somewhere in the trace while lock `l` is held. -/
def networkWhileHeld (l : LockId) (tr : List TraceEvent) : Bool :=
  netWhileHeldFrom l tr 0

/-- The winner lookup shared by both branches of
`check_market_result_cached` (trader.rs lines 123-126 and 150-153):
find the token row with our token id, read its `winner` flag, defaulting
to `false` when the token is not found. -/
def winnerOfToken (market : MarketDetails) (token_id : String) : Bool :=
  ((market.tokens.find? fun t => t.token_id = token_id).map
    fun t => t.winner).getD false

/-- Function `Trader::check_market_result_cached` (trader.rs lines 112-164).
Answers `(closed, token_is_winner)` from a cache entry younger than 60
seconds when one exists; otherwise queries the Price Source, caching a
successful answer at the current instant. A query failure degrades to
`(false, false)` — every control path returns `Except.ok`, mirroring the
source in which every `return` is `Ok(..)`.  The third component is the
event trace: the cache lock is taken at line 115 and released either by
the early returns of the hit branch or by the explicit `drop` at line 137
before the network call; after a successful fetch the lock is retaken at
line 141 and dropped at line 146.

The 60-second validity test on a cache entry (trader.rs lines 114-119) is
extracted into `cacheFresh`: the entry usable to answer directly, if any. -/
def cacheFresh (now : ℕ) (cache : List (String × CachedMarketData))
    (condition_id : String) : Option CachedMarketData :=
  let cache_ttl : ℕ := 60
  match alookup condition_id cache with
  | some cached => if now - cached.cached_at < cache_ttl then some cached else none
  | none => none

/-- See `cacheFresh` above: the body of
`Trader::check_market_result_cached` (trader.rs lines 112-164). -/
def check_market_result_cached (gm : GetMarket) (now : ℕ)
    (cache : List (String × CachedMarketData))
    (condition_id token_id : String) :
    Except String
      ((Bool × Bool) × List (String × CachedMarketData) × List TraceEvent) :=
  match cacheFresh now cache condition_id with
  | some cached =>
    if cached.market.closed then
      Except.ok ((true, winnerOfToken cached.market token_id), cache,
        [TraceEvent.lockEv LockId.marketCache,
         TraceEvent.unlockEv LockId.marketCache])
    else
      Except.ok ((false, false), cache,
        [TraceEvent.lockEv LockId.marketCache,
         TraceEvent.unlockEv LockId.marketCache])
  | none =>
    match gm condition_id with
    | Except.ok market =>
      let cache1 := (cache.filter fun kv => ¬ kv.1 = condition_id) ++
        [(condition_id, { market := market, cached_at := now })]
      let events :=
        [TraceEvent.lockEv LockId.marketCache,
         TraceEvent.unlockEv LockId.marketCache,
         TraceEvent.networkEv,
         TraceEvent.lockEv LockId.marketCache,
         TraceEvent.unlockEv LockId.marketCache]
      if market.closed then
        Except.ok ((true, winnerOfToken market token_id), cache1, events)
      else
        Except.ok ((false, false), cache1, events)
    | Except.error _ =>
      Except.ok ((false, false), cache,
        [TraceEvent.lockEv LockId.marketCache,
         TraceEvent.unlockEv LockId.marketCache,
         TraceEvent.networkEv])

/-- The order placements of `Trader::sell_winning_tokens` (trader.rs lines
167-215): one `place_order` network call per winning leg. -/
def sellEvents (eth_winner btc_winner : Bool) : List TraceEvent :=
  (if eth_winner then [TraceEvent.networkEv] else []) ++
    (if btc_winner then [TraceEvent.networkEv] else [])

/-- Result of one sweep of `Trader::check_pending_trades`: the keys
collected in `to_remove`, the threaded cache, the updated running profit,
and the log of market-status lookups performed, each tagged with the
pending-trade key on whose behalf it was issued. -/
structure SweepAccum where
  to_remove : List String
  cache : List (String × CachedMarketData)
  total_profit : ℚ
  queries : List (String × String)
  events : List TraceEvent
deriving Repr, DecidableEq

/-- The `for (key, trade) in pending.iter()` loop of
`Trader::check_pending_trades` (trader.rs lines 54-103): a trade younger
than 14 minutes is skipped outright; otherwise both legs' market status is
resolved through `check_market_result_cached`, and when both markets are
closed the realized profit is added to the running total and the key is
marked for removal. -/
def sweepLoop (gm : GetMarket) (now : ℕ) (simulation_mode : Bool) :
    List (String × PendingTrade) → SweepAccum → Except String SweepAccum
  | [], acc => Except.ok acc
  | (key, trade) :: rest, acc =>
    let min_age : ℕ := 14 * 60
    let age := now - trade.timestamp
    if age < min_age then
      sweepLoop gm now simulation_mode rest acc
    else
      match check_market_result_cached gm now acc.cache
        trade.eth_condition_id trade.eth_token_id with
      | Except.error e => Except.error e
      | Except.ok (ethRes, cache1, ethEvents) =>
        match check_market_result_cached gm now cache1
          trade.btc_condition_id trade.btc_token_id with
        | Except.error e => Except.error e
        | Except.ok (btcRes, cache2, btcEvents) =>
          let queries1 := acc.queries ++
            [(key, trade.eth_condition_id), (key, trade.btc_condition_id)]
          let events1 := acc.events ++ ethEvents ++ btcEvents
          if ethRes.1 && btcRes.1 then
            let actual_profit := calculate_actual_profit trade ethRes.2 btcRes.2
            sweepLoop gm now simulation_mode rest
              { to_remove := acc.to_remove ++ [key]
                cache := cache2
                total_profit := acc.total_profit + actual_profit
                queries := queries1
                events := events1 ++
                  (if simulation_mode then []
                   else sellEvents ethRes.2 btcRes.2) ++
                  [TraceEvent.lockEv LockId.totalProfit,
                   TraceEvent.unlockEv LockId.totalProfit] }
          else
            sweepLoop gm now simulation_mode rest
              { acc with cache := cache2, queries := queries1, events := events1 }

/-- Outcome of `Trader::check_pending_trades`: updated trader state plus
the lookup log (for stating which trades were checked). -/
structure SweepResult where
  state : TraderState
  queries : List (String × String)
  events : List TraceEvent
deriving Repr, DecidableEq

/-- Function `Trader::check_pending_trades` (trader.rs lines 42-110): run the sweep
loop over the pending map, then remove the settled keys.  The trade
counter is untouched; the pending map keeps exactly the entries whose key
was not collected in `to_remove`.  The pending-trade map lock is taken at
line 43 and its guard lives until the end of the function, so the whole
loop body — market-status lookups and winning-token sales included — runs
inside it; the trace brackets all loop events between its lock and unlock
events. -/
def check_pending_trades (gm : GetMarket) (now : ℕ) (simulation_mode : Bool)
    (s : TraderState) : Except String SweepResult :=
  match sweepLoop gm now simulation_mode s.pending_trades
    { to_remove := [], cache := s.market_cache
      total_profit := s.total_profit, queries := [], events := [] } with
  | Except.error e => Except.error e
  | Except.ok acc =>
    Except.ok
      { state :=
          { s with
            total_profit := acc.total_profit
            market_cache := acc.cache
            pending_trades :=
              s.pending_trades.filter fun kv => ¬ acc.to_remove.contains kv.1 }
        queries := acc.queries
        events := [TraceEvent.lockEv LockId.pendingTrades] ++ acc.events ++
          [TraceEvent.unlockEv LockId.pendingTrades] }

/-- The event trace of `Trader::execute_real_trade` (trader.rs lines
341-433): the two leg orders are placed (network) at lines 366-369 before
the pending-trade lock is taken at line 396; the counter lock follows
after the map lock is dropped at line 418. -/
def execute_real_trade_events : List TraceEvent :=
  [TraceEvent.networkEv, TraceEvent.networkEv,
   TraceEvent.lockEv LockId.pendingTrades,
   TraceEvent.unlockEv LockId.pendingTrades,
   TraceEvent.lockEv LockId.tradesExecuted,
   TraceEvent.unlockEv LockId.tradesExecuted]

/-- The event trace of `Trader::simulate_trade` (trader.rs lines 252-339):
no network call at all; the map lock (line 302, dropped 324) then the
counter lock (line 326, dropped 329). -/
def simulate_trade_events : List TraceEvent :=
  [TraceEvent.lockEv LockId.pendingTrades,
   TraceEvent.unlockEv LockId.pendingTrades,
   TraceEvent.lockEv LockId.tradesExecuted,
   TraceEvent.unlockEv LockId.tradesExecuted]

/-! ## Market Monitor (`monitor.rs`) -/

/-- Struct `models::Market` as consumed by the monitor: a stable condition id and
a human-readable slug. -/
structure Market where
  condition_id : String
  slug : String
deriving Repr, DecidableEq

/-- The mutable state of `MarketMonitor` (monitor.rs lines 8-20). -/
structure MarketMonitorState where
  eth_market : Market
  btc_market : Market
  eth_up_token_id : Option String
  eth_down_token_id : Option String
  btc_up_token_id : Option String
  btc_down_token_id : Option String
  last_market_refresh : Option ℕ
  current_period_timestamp : ℕ
deriving Repr, DecidableEq

/-- The period-boundary computation of monitor.rs lines 37-41 and 74-78:
current unix time rounded down to the nearest 900-second boundary. -/
def periodBoundary (current_time : ℕ) : ℕ :=
  current_time / 900 * 900

/-- Function `MarketMonitor::update_markets` (monitor.rs lines 58-82): replace both
tracked markets, reset the four cached token ids and the last-refresh
instant to `None`, and recompute the stored period boundary from current
time. -/
def update_markets (now : ℕ) (eth_market btc_market : Market)
    (s : MarketMonitorState) : MarketMonitorState :=
  { s with
    eth_market := eth_market
    btc_market := btc_market
    eth_up_token_id := none
    eth_down_token_id := none
    btc_up_token_id := none
    btc_down_token_id := none
    last_market_refresh := none
    current_period_timestamp := periodBoundary now }

/-- Function `MarketMonitor::should_discover_new_markets` (monitor.rs lines 85-96):
true exactly when the freshly computed period boundary differs from the
stored one. -/
def should_discover_new_markets (now : ℕ) (s : MarketMonitorState) : Bool :=
  ¬ periodBoundary now = s.current_period_timestamp

/-- The outcome-label heuristic of `refresh_market_tokens` (monitor.rs
lines 125-132 and 139-146): fold one market's token rows over the pair of
cached ids, assigning the "up" slot when the uppercased label contains
"UP" or equals "1", and the "down" slot on "DOWN" or "0". -/
def classifyTokens (tokens : List MarketToken)
    (ids : Option String × Option String) : Option String × Option String :=
  tokens.foldl
    (fun acc token =>
      let outcome_upper := token.outcome.toUpper
      if strContainsStr outcome_upper "UP" || outcome_upper == "1" then
        (some token.token_id, acc.2)
      else if strContainsStr outcome_upper "DOWN" || outcome_upper == "0" then
        (acc.1, some token.token_id)
      else acc)
    ids

/-- Function `MarketMonitor::refresh_market_tokens` (monitor.rs lines 106-152),
instrumented with the list of condition ids whose metadata is requested
from the Price Source.  When the last refresh is unset or at least 900
seconds old, both markets are queried (a failed query leaves that market's
ids untouched, silently) and the refresh instant is set; otherwise the
call is a no-op issuing no query. -/
def refresh_market_tokens (gm : GetMarket) (now : ℕ)
    (s : MarketMonitorState) : MarketMonitorState × List String :=
  let should_refresh :=
    match s.last_market_refresh with
    | some last => 900 ≤ now - last
    | none => true
  if should_refresh = false then
    (s, [])
  else
    let eth_condition_id := s.eth_market.condition_id
    let btc_condition_id := s.btc_market.condition_id
    let s1 :=
      match gm eth_condition_id with
      | Except.ok eth_details =>
        let ids := classifyTokens eth_details.tokens
          (s.eth_up_token_id, s.eth_down_token_id)
        { s with eth_up_token_id := ids.1, eth_down_token_id := ids.2 }
      | Except.error _ => s
    let s2 :=
      match gm btc_condition_id with
      | Except.ok btc_details =>
        let ids := classifyTokens btc_details.tokens
          (s1.btc_up_token_id, s1.btc_down_token_id)
        { s1 with btc_up_token_id := ids.1, btc_down_token_id := ids.2 }
      | Except.error _ => s1
    ({ s2 with last_market_refresh := some now },
      [eth_condition_id, btc_condition_id])

/-! ## Helper lemmas on association lists -/

theorem alookup_cons {β : Type} (key : String) (kv : String × β)
    (l : List (String × β)) :
    alookup key (kv :: l) = if kv.1 = key then some kv.2 else alookup key l :=
  rfl

theorem alookup_append_of_none {β : Type} (key : String)
    (l1 l2 : List (String × β)) (h : alookup key l1 = none) :
    alookup key (l1 ++ l2) = alookup key l2 := by
  induction l1 with
  | nil => rfl
  | cons kv rest ih =>
    rw [alookup_cons] at h
    by_cases hk : kv.1 = key
    · rw [if_pos hk] at h
      cases h
    · rw [if_neg hk] at h
      rw [List.cons_append, alookup_cons, if_neg hk]
      exact ih h

theorem alookup_cons_self {β : Type} (key : String) (v : β)
    (l : List (String × β)) : alookup key ((key, v) :: l) = some v := by
  simp [alookup]

theorem alookup_map_update {β : Type} (key : String) (f : β → β)
    (l : List (String × β)) :
    alookup key (l.map fun kv => if kv.1 = key then (kv.1, f kv.2) else kv) =
      (alookup key l).map f := by
  induction l with
  | nil => rfl
  | cons kv rest ih =>
    by_cases hk : kv.1 = key
    · simp [alookup, hk]
    · simp [alookup, hk, ih]

theorem map_fst_map_update {β : Type} (key : String) (f : β → β)
    (l : List (String × β)) :
    (l.map fun kv => if kv.1 = key then (kv.1, f kv.2) else kv).map Prod.fst =
      l.map Prod.fst := by
  induction l with
  | nil => rfl
  | cons kv rest ih =>
    by_cases hk : kv.1 = key
    · simp [hk, ih]
    · simp [hk, ih]

theorem alookup_eq_none_iff {β : Type} (key : String) (l : List (String × β)) :
    alookup key l = none ↔ key ∉ l.map Prod.fst := by
  induction l with
  | nil => simp [alookup]
  | cons kv rest ih =>
    rw [alookup_cons]
    by_cases hk : kv.1 = key
    · simp [hk]
    · rw [if_neg hk, ih]
      simp only [List.map_cons, List.mem_cons]
      constructor
      · intro h hmem
        rcases hmem with h1 | h1
        · exact hk h1.symm
        · exact h h1
      · intro h hmem
        exact h (Or.inr hmem)

theorem mem_eq_of_nodup_keys {β : Type} (key : String) (a b : β)
    (l : List (String × β)) (hnodup : (l.map Prod.fst).Nodup)
    (ha : (key, a) ∈ l) (hb : (key, b) ∈ l) : a = b := by
  induction l with
  | nil => cases ha
  | cons kv rest ih =>
    simp only [List.map_cons, List.nodup_cons] at hnodup
    rcases List.mem_cons.mp ha with ha1 | ha1 <;>
      rcases List.mem_cons.mp hb with hb1 | hb1
    · rw [← hb1] at ha1
      exact ((Prod.mk.injEq key a key b).mp ha1).2
    · exfalso
      apply hnodup.1
      rw [← ha1]
      exact List.mem_map.mpr ⟨(key, b), hb1, rfl⟩
    · exfalso
      apply hnodup.1
      rw [← hb1]
      exact List.mem_map.mpr ⟨(key, a), ha1, rfl⟩
    · exact ih hnodup.2 ha1 hb1

/-! ## C3: the binary payoff rule -/

/-- C3: for every `PendingTrade` and every pair of winner flags,
`calculate_actual_profit` returns payout minus investment, with payout
2 × units when both legs win, 1 × units when exactly one wins and 0 when
neither wins; with units 100 and investment 75 this gives 25 / 125 / −75
in the three quoted scenarios. -/
theorem payoff_rule_profit (trade : PendingTrade) (eth_winner btc_winner : Bool) :
    (calculate_actual_profit trade eth_winner btc_winner =
      (if eth_winner && btc_winner then 2 * trade.units
       else if eth_winner || btc_winner then 1 * trade.units
       else 0) - trade.investment_amount)
    ∧ (∀ (tid1 tid2 cid1 cid2 : String) (ts : ℕ),
        calculate_actual_profit
          { eth_token_id := tid1, btc_token_id := tid2,
            eth_condition_id := cid1, btc_condition_id := cid2,
            investment_amount := 75, units := 100, timestamp := ts }
          true false = 25 ∧
        calculate_actual_profit
          { eth_token_id := tid1, btc_token_id := tid2,
            eth_condition_id := cid1, btc_condition_id := cid2,
            investment_amount := 75, units := 100, timestamp := ts }
          true true = 125 ∧
        calculate_actual_profit
          { eth_token_id := tid1, btc_token_id := tid2,
            eth_condition_id := cid1, btc_condition_id := cid2,
            investment_amount := 75, units := 100, timestamp := ts }
          false false = -75) := by
  constructor
  · cases eth_winner <;> cases btc_winner <;>
      norm_num [calculate_actual_profit]
  · intro tid1 tid2 cid1 cid2 ts
    refine ⟨?_, ?_, ?_⟩ <;> norm_num [calculate_actual_profit]

/-! ## C4: position sizing -/

/-- C4 (amended): for positive leg cost the position size is
`min ((max/cost)·cost) max`, never exceeds the configured maximum, and
equals the maximum whenever the maximum is an exact multiple of the
cost; the unit count `max/cost` is in general fractional (see the
counterexample), so the cap is converted into a count of unit pairs that
need not be whole. -/
theorem position_size_cap (max_size total_cost : ℚ) (hpos : 0 < total_cost) :
    calculate_position_size max_size total_cost =
      min (positionUnits max_size total_cost * total_cost) max_size
    ∧ calculate_position_size max_size total_cost ≤ max_size
    ∧ (∀ n : ℕ, max_size = n * total_cost →
        calculate_position_size max_size total_cost = max_size) := by
  refine ⟨rfl, min_le_right _ _, ?_⟩
  intro n hn
  have hne : total_cost ≠ 0 := ne_of_gt hpos
  simp [calculate_position_size, div_mul_cancel₀ _ hne]

/-- Closed witness for `position_size_cap` at `max = 100`, `cost = 3/4`. -/
theorem position_size_cap_witness :
    (0:ℚ) < 3/4 ∧
    (calculate_position_size 100 (3/4) =
        min (positionUnits 100 (3/4) * (3/4)) 100
      ∧ calculate_position_size 100 (3/4) ≤ 100
      ∧ (∀ n : ℕ, (100:ℚ) = n * (3/4) →
          calculate_position_size 100 (3/4) = 100)) :=
  ⟨by norm_num, position_size_cap 100 (3/4) (by norm_num)⟩

/-- C4 counterexample to "the ceiling is converted into a whole count of
unit pairs": at `max = 100`, `cost = 3/4` (the spec's own worked example)
the computed unit count is `400/3 = 133.33…`, not a whole number — the
code performs no rounding. -/
theorem position_units_not_whole :
    positionUnits 100 (3/4) = 400/3 ∧
    (positionUnits 100 (3/4)).den ≠ 1 ∧
    calculate_position_size 100 (3/4) = 100 := by
  refine ⟨by decide, by decide, by decide⟩

/-! ## C9: update_markets clears the token-id cache -/

/-- C9: after `update_markets` all four cached token ids and the
last-refresh instant are `None`, so the next refresh (the first step of
`fetch_market_data`) finds `should_refresh = true` and queries the Price
Source for both markets' metadata. -/
theorem update_markets_clears_cache (now now2 : ℕ) (eth btc : Market)
    (s : MarketMonitorState) (gm : GetMarket) :
    ((update_markets now eth btc s).eth_up_token_id = none
      ∧ (update_markets now eth btc s).eth_down_token_id = none
      ∧ (update_markets now eth btc s).btc_up_token_id = none
      ∧ (update_markets now eth btc s).btc_down_token_id = none
      ∧ (update_markets now eth btc s).last_market_refresh = none)
    ∧ (refresh_market_tokens gm now2 (update_markets now eth btc s)).2 =
        [eth.condition_id, btc.condition_id] := by
  refine ⟨⟨rfl, rfl, rfl, rfl, rfl⟩, ?_⟩
  simp [refresh_market_tokens, update_markets]

/-! ## C1, C2: detector characterization -/

theorem check_arbitrage_ask_some (th : ℚ) (t1 t2 : TokenPrice)
    (c1 c2 : String) (p1 p2 : ℚ)
    (h1 : t1.ask = some p1) (h2 : t2.ask = some p2) :
    check_arbitrage th t1 t2 c1 c2 =
      if ¬ (p1 < 6/10 ∧ p2 < 6/10) ∧ p1 + p2 < 1 ∧ th ≤ 1 - (p1 + p2) then
        some { eth_up_price := p1, btc_down_price := p2,
               total_cost := p1 + p2, expected_profit := 1 - (p1 + p2),
               eth_up_token_id := t1.token_id,
               btc_down_token_id := t2.token_id,
               eth_condition_id := c1, btc_condition_id := c2 }
      else none := by
  simp only [check_arbitrage]
  rw [h1, h2]
  by_cases hrug : p1 < 6/10 ∧ p2 < 6/10
  · simp [hrug]
  · by_cases hcost : p1 + p2 < 1
    · by_cases hth : th ≤ 1 - (p1 + p2)
      · simp [hrug, hcost, hth]
      · simp [hrug, hcost, hth]
    · simp [hrug, hcost]

theorem check_arbitrage_none_left (th : ℚ) (t1 t2 : TokenPrice)
    (c1 c2 : String) (h : t1.ask = none) :
    check_arbitrage th t1 t2 c1 c2 = none := by
  simp only [check_arbitrage]
  rw [h]

theorem check_arbitrage_none_right (th : ℚ) (t1 t2 : TokenPrice)
    (c1 c2 : String) (h : t2.ask = none) :
    check_arbitrage th t1 t2 c1 c2 = none := by
  simp only [check_arbitrage]
  rw [h]
  rcases ht : t1.ask with _ | p
  · rfl
  · rfl

/-- C1: for a pairing in which both legs carry an ask price,
`check_arbitrage` emits an opportunity exactly when it is not the case
that both asks are below 0.6, the summed cost is strictly below 1, and
the profit `1 - cost` reaches the configured threshold; the emitted
opportunity carries `total_cost = ask1 + ask2` and
`expected_profit = 1 - total_cost`; and each directional strategy of
`detect_opportunities` contributes exactly the (zero- or one-element)
list produced by `check_arbitrage` for its pairing. -/
theorem detector_pairing_emission (th : ℚ) (t1 t2 : TokenPrice)
    (c1 c2 : String) (p1 p2 : ℚ)
    (h1 : t1.ask = some p1) (h2 : t2.ask = some p2) :
    ((check_arbitrage th t1 t2 c1 c2).isSome = true ↔
      ¬ (p1 < 6/10 ∧ p2 < 6/10) ∧ p1 + p2 < 1 ∧ th ≤ 1 - (p1 + p2))
    ∧ (∀ op, check_arbitrage th t1 t2 c1 c2 = some op →
        op.total_cost = p1 + p2 ∧ op.expected_profit = 1 - op.total_cost)
    ∧ (∀ snapshot : MarketSnapshot,
        snapshot.eth_market.up_token = some t1 →
        snapshot.btc_market.down_token = some t2 →
        strategy_eth_up_btc_down th snapshot =
          (check_arbitrage th t1 t2 snapshot.eth_market.condition_id
            snapshot.btc_market.condition_id).toList)
    ∧ (∀ snapshot : MarketSnapshot,
        snapshot.eth_market.down_token = some t1 →
        snapshot.btc_market.up_token = some t2 →
        strategy_eth_down_btc_up th snapshot =
          (check_arbitrage th t1 t2 snapshot.eth_market.condition_id
            snapshot.btc_market.condition_id).toList)
    ∧ (∀ snapshot : MarketSnapshot,
        detect_opportunities th snapshot =
          strategy_eth_up_btc_down th snapshot ++
            strategy_eth_down_btc_up th snapshot) := by
  refine ⟨?_, ?_, ?_, ?_, fun _ => rfl⟩
  · rw [check_arbitrage_ask_some th t1 t2 c1 c2 p1 p2 h1 h2]
    by_cases hc : ¬ (p1 < 6/10 ∧ p2 < 6/10) ∧ p1 + p2 < 1 ∧ th ≤ 1 - (p1 + p2)
    · simp [hc]
    · simp [hc]
  · intro op hop
    rw [check_arbitrage_ask_some th t1 t2 c1 c2 p1 p2 h1 h2] at hop
    by_cases hc : ¬ (p1 < 6/10 ∧ p2 < 6/10) ∧ p1 + p2 < 1 ∧ th ≤ 1 - (p1 + p2)
    · rw [if_pos hc] at hop
      cases hop
      exact ⟨rfl, rfl⟩
    · rw [if_neg hc] at hop
      cases hop
  · intro snapshot hup hdown
    simp [strategy_eth_up_btc_down, hup, hdown]
  · intro snapshot hdown hup
    simp [strategy_eth_down_btc_up, hdown, hup]

/-- Closed witness for `detector_pairing_emission`: asks 0.7 and 0.2 emit
(cost 0.9, profit 0.1 ≥ threshold 0.01). -/
theorem detector_pairing_emission_witness :
    (check_arbitrage (1/100)
      { token_id := "a", bid := none, ask := some (7/10) }
      { token_id := "b", bid := none, ask := some (2/10) }
      "c1" "c2").isSome = true :=
  (detector_pairing_emission (1/100)
    { token_id := "a", bid := none, ask := some (7/10) }
    { token_id := "b", bid := none, ask := some (2/10) }
    "c1" "c2" (7/10) (2/10) rfl rfl).1.mpr (by norm_num)

/-- C2: a pairing in which a leg has no quoted ask — the whole
`TokenPrice` slot missing, or the slot present with `ask = None` —
contributes no opportunity: the strategy list for that pairing is empty,
with no error. -/
theorem detector_skips_missing_ask (th : ℚ) (snapshot : MarketSnapshot) :
    ((snapshot.eth_market.up_token.bind TokenPrice.ask = none ∨
        snapshot.btc_market.down_token.bind TokenPrice.ask = none) →
      strategy_eth_up_btc_down th snapshot = [])
    ∧ ((snapshot.eth_market.down_token.bind TokenPrice.ask = none ∨
        snapshot.btc_market.up_token.bind TokenPrice.ask = none) →
      strategy_eth_down_btc_up th snapshot = []) := by
  constructor
  · intro h
    rcases hup : snapshot.eth_market.up_token with _ | t1
    · simp [strategy_eth_up_btc_down, hup]
    · rcases hdown : snapshot.btc_market.down_token with _ | t2
      · simp [strategy_eth_up_btc_down, hup, hdown]
      · rw [hup, hdown] at h
        simp only [Option.some_bind] at h
        rcases h with h | h
        · simp [strategy_eth_up_btc_down, hup, hdown,
            check_arbitrage_none_left th t1 t2 _ _ h]
        · simp [strategy_eth_up_btc_down, hup, hdown,
            check_arbitrage_none_right th t1 t2 _ _ h]
  · intro h
    rcases hdown : snapshot.eth_market.down_token with _ | t1
    · simp [strategy_eth_down_btc_up, hdown]
    · rcases hup : snapshot.btc_market.up_token with _ | t2
      · simp [strategy_eth_down_btc_up, hdown, hup]
      · rw [hdown, hup] at h
        simp only [Option.some_bind] at h
        rcases h with h | h
        · simp [strategy_eth_down_btc_up, hdown, hup,
            check_arbitrage_none_left th t1 t2 _ _ h]
        · simp [strategy_eth_down_btc_up, hdown, hup,
            check_arbitrage_none_right th t1 t2 _ _ h]

/-- Closed witness for `detector_skips_missing_ask`: a present
`TokenPrice` with only a bid yields no opportunity. -/
theorem detector_skips_missing_ask_witness :
    strategy_eth_up_btc_down (1/100)
      { eth_market :=
          { condition_id := "e", market_name := "ETH",
            up_token := some { token_id := "a", bid := some (1/2), ask := none },
            down_token := none },
        btc_market :=
          { condition_id := "b", market_name := "BTC",
            up_token := none,
            down_token := some { token_id := "d", bid := none, ask := some (1/2) } },
        timestamp := 0 } = [] :=
  (detector_skips_missing_ask (1/100) _).1 (Or.inl rfl)

/-! ## C5, C10: pending-trade accumulation -/

theorem recordTrade_lookup_absent (pending : List (String × PendingTrade))
    (key : String) (op : ArbitrageOpportunity) (u p : ℚ) (now : ℕ)
    (h : alookup key pending = none) :
    alookup key (recordTrade pending key op u p now) =
      some { eth_token_id := op.eth_up_token_id
             btc_token_id := op.btc_down_token_id
             eth_condition_id := op.eth_condition_id
             btc_condition_id := op.btc_condition_id
             investment_amount := p
             units := u
             timestamp := now } := by
  simp only [recordTrade, h]
  rw [alookup_append_of_none _ _ _ h, alookup_cons_self]

theorem recordTrade_lookup_present (pending : List (String × PendingTrade))
    (key : String) (op : ArbitrageOpportunity) (u p : ℚ) (now : ℕ)
    (t : PendingTrade) (h : alookup key pending = some t) :
    alookup key (recordTrade pending key op u p now) =
      some { t with units := t.units + u
                    investment_amount := t.investment_amount + p } := by
  simp only [recordTrade, h]
  rw [alookup_map_update key
    (fun t2 => { t2 with units := t2.units + u
                         investment_amount := t2.investment_amount + p }) pending]
  rw [h]
  rfl

theorem recordTrade_nodup (pending : List (String × PendingTrade))
    (key : String) (op : ArbitrageOpportunity) (u p : ℚ) (now : ℕ)
    (h : (pending.map Prod.fst).Nodup) :
    ((recordTrade pending key op u p now).map Prod.fst).Nodup := by
  cases hl : alookup key pending with
  | some t =>
    simp only [recordTrade, hl]
    rw [map_fst_map_update key
      (fun t2 => { t2 with units := t2.units + u
                           investment_amount := t2.investment_amount + p }) pending]
    exact h
  | none =>
    simp only [recordTrade, hl]
    rw [List.map_append]
    apply List.Nodup.append h (List.nodup_singleton key)
    intro a ha hb
    simp only [List.map_cons, List.map_nil, List.mem_singleton] at hb
    subst hb
    exact (alookup_eq_none_iff a pending).mp hl ha

/-- C5: executing two opportunities for the same condition-id key on a
state with no entry for that key leaves one `PendingTrade` whose units
and investment are the sums of the two individually computed values —
for the simulated and the real execution path alike — and both paths
preserve key uniqueness of the pending map (at most one `PendingTrade`
per condition-id pair key). -/
theorem pending_trade_accumulation (maxs : ℚ) (op1 op2 : ArbitrageOpportunity)
    (now1 now2 : ℕ) (s : TraderState)
    (hkey : tradeKey op2 = tradeKey op1)
    (habsent : alookup (tradeKey op1) s.pending_trades = none) :
    (∃ t, alookup (tradeKey op1)
        (simulate_trade maxs op2 now2
          (simulate_trade maxs op1 now1 s)).pending_trades = some t ∧
      t.units = tradeUnits maxs op1 + tradeUnits maxs op2 ∧
      t.investment_amount = calculate_position_size maxs op1.total_cost +
        calculate_position_size maxs op2.total_cost)
    ∧ (∃ t, alookup (tradeKey op1)
        (execute_real_trade maxs op2 now2
          (execute_real_trade maxs op1 now1 s)).pending_trades = some t ∧
      t.units = tradeUnits maxs op1 + tradeUnits maxs op2 ∧
      t.investment_amount = calculate_position_size maxs op1.total_cost +
        calculate_position_size maxs op2.total_cost)
    ∧ (∀ (s2 : TraderState) (op : ArbitrageOpportunity) (now : ℕ),
        (s2.pending_trades.map Prod.fst).Nodup →
        ((simulate_trade maxs op now s2).pending_trades.map Prod.fst).Nodup ∧
        ((execute_real_trade maxs op now s2).pending_trades.map Prod.fst).Nodup) := by
  refine ⟨?_, ?_, ?_⟩
  · simp only [simulate_trade]
    rw [hkey]
    rw [recordTrade_lookup_present _ _ _ _ _ _ _
      (recordTrade_lookup_absent _ _ _ _ _ _ habsent)]
    exact ⟨_, rfl, rfl, rfl⟩
  · simp only [execute_real_trade]
    rw [hkey]
    rw [recordTrade_lookup_present _ _ _ _ _ _ _
      (recordTrade_lookup_absent _ _ _ _ _ _ habsent)]
    exact ⟨_, rfl, rfl, rfl⟩
  · intro s2 op now hnd
    exact ⟨recordTrade_nodup _ _ _ _ _ _ hnd, recordTrade_nodup _ _ _ _ _ _ hnd⟩

/-- A concrete opportunity (ETH Up + BTC Down legs) used in witnesses. -/
def exOppA : ArbitrageOpportunity :=
  { eth_up_price := 2/5, btc_down_price := 7/20, total_cost := 3/4,
    expected_profit := 1/4, eth_up_token_id := "tokEthUp",
    btc_down_token_id := "tokBtcDown", eth_condition_id := "condEth",
    btc_condition_id := "condBtc" }

/-- The opposite directional pairing (ETH Down + BTC Up legs) on the same
two condition ids: same pending-map key, different token ids. -/
def exOppB : ArbitrageOpportunity :=
  { eth_up_price := 3/10, btc_down_price := 1/5, total_cost := 1/2,
    expected_profit := 1/2, eth_up_token_id := "tokEthDown",
    btc_down_token_id := "tokBtcUp", eth_condition_id := "condEth",
    btc_condition_id := "condBtc" }

/-- Closed witness for `pending_trade_accumulation` on two concrete
opportunities over the empty state. -/
theorem pending_trade_accumulation_witness :
    ∃ t, alookup (tradeKey exOppA)
        (simulate_trade 100 exOppB 5
          (simulate_trade 100 exOppA 3
            { total_profit := 0, trades_executed := 0,
              pending_trades := [], market_cache := [] })).pending_trades
          = some t ∧
      t.units = tradeUnits 100 exOppA + tradeUnits 100 exOppB ∧
      t.investment_amount = calculate_position_size 100 exOppA.total_cost +
        calculate_position_size 100 exOppB.total_cost :=
  (pending_trade_accumulation 100 exOppA exOppB 3 5
    { total_profit := 0, trades_executed := 0,
      pending_trades := [], market_cache := [] } rfl rfl).1

/-- C10: when an execution accumulates into an existing `PendingTrade`
under the same condition-id key, only `units` and `investment_amount`
change; the stored token ids, condition ids and creation timestamp stay
those of the first recorded trade, and the later opportunity's token ids
(which differ when it is the opposite directional pairing) are
discarded.  Holds for both execution paths. -/
theorem accumulation_preserves_frame (maxs : ℚ) (op : ArbitrageOpportunity)
    (now : ℕ) (s : TraderState) (t0 : PendingTrade)
    (hpresent : alookup (tradeKey op) s.pending_trades = some t0) :
    (∃ t, alookup (tradeKey op)
        (simulate_trade maxs op now s).pending_trades = some t ∧
      t.eth_token_id = t0.eth_token_id ∧ t.btc_token_id = t0.btc_token_id ∧
      t.eth_condition_id = t0.eth_condition_id ∧
      t.btc_condition_id = t0.btc_condition_id ∧
      t.timestamp = t0.timestamp ∧
      t.units = t0.units + tradeUnits maxs op ∧
      t.investment_amount = t0.investment_amount +
        calculate_position_size maxs op.total_cost)
    ∧ (∃ t, alookup (tradeKey op)
        (execute_real_trade maxs op now s).pending_trades = some t ∧
      t.eth_token_id = t0.eth_token_id ∧ t.btc_token_id = t0.btc_token_id ∧
      t.eth_condition_id = t0.eth_condition_id ∧
      t.btc_condition_id = t0.btc_condition_id ∧
      t.timestamp = t0.timestamp ∧
      t.units = t0.units + tradeUnits maxs op ∧
      t.investment_amount = t0.investment_amount +
        calculate_position_size maxs op.total_cost) := by
  constructor
  · simp only [simulate_trade]
    rw [recordTrade_lookup_present _ _ _ _ _ _ _ hpresent]
    exact ⟨_, rfl, rfl, rfl, rfl, rfl, rfl, rfl, rfl⟩
  · simp only [execute_real_trade]
    rw [recordTrade_lookup_present _ _ _ _ _ _ _ hpresent]
    exact ⟨_, rfl, rfl, rfl, rfl, rfl, rfl, rfl, rfl⟩

/-- Closed witness for `accumulation_preserves_frame`: accumulating the
opposite directional pairing `exOppB` into an entry created from
`exOppA`'s token ids keeps the original ids and timestamp. -/
theorem accumulation_preserves_frame_witness :
    ∃ t, alookup (tradeKey exOppB)
        (simulate_trade 100 exOppB 7
          { total_profit := 0, trades_executed := 1,
            pending_trades := [("condEth_condBtc",
              { eth_token_id := "tokEthUp", btc_token_id := "tokBtcDown",
                eth_condition_id := "condEth", btc_condition_id := "condBtc",
                investment_amount := 75, units := 100, timestamp := 0 })],
            market_cache := [] }).pending_trades = some t ∧
      t.eth_token_id = "tokEthUp" ∧ t.btc_token_id = "tokBtcDown" ∧
      t.eth_condition_id = "condEth" ∧ t.btc_condition_id = "condBtc" ∧
      t.timestamp = 0 ∧
      t.units = 100 + tradeUnits 100 exOppB ∧
      t.investment_amount = 75 + calculate_position_size 100 exOppB.total_cost :=
  (accumulation_preserves_frame 100 exOppB 7
    { total_profit := 0, trades_executed := 1,
      pending_trades := [("condEth_condBtc",
        { eth_token_id := "tokEthUp", btc_token_id := "tokBtcDown",
          eth_condition_id := "condEth", btc_condition_id := "condBtc",
          investment_amount := 75, units := 100, timestamp := 0 })],
      market_cache := [] }
    { eth_token_id := "tokEthUp", btc_token_id := "tokBtcDown",
      eth_condition_id := "condEth", btc_condition_id := "condBtc",
      investment_amount := 75, units := 100, timestamp := 0 } rfl).1

/-! ## C6, C7, C8: sweep infrastructure -/

/-- Net contribution of a trace to the hold-depth of lock `l`. -/
def tDelta (l : LockId) (tr : List TraceEvent) : ℤ :=
  (tr.map (heldDelta l)).sum

/-- A well-bracketed trace fragment with respect to lock `l`: it returns
the hold-depth to its starting value and, started at depth 0, performs no
network call while `l` is held. -/
abbrev chunkOK (l : LockId) (tr : List TraceEvent) : Prop :=
  tDelta l tr = 0 ∧ netWhileHeldFrom l tr 0 = false

theorem tDelta_append (l : LockId) (t1 t2 : List TraceEvent) :
    tDelta l (t1 ++ t2) = tDelta l t1 + tDelta l t2 := by
  simp [tDelta]

theorem tDelta_cons (l : LockId) (e : TraceEvent) (es : List TraceEvent) :
    tDelta l (e :: es) = heldDelta l e + tDelta l es := by
  simp [tDelta]

theorem netFrom_cons_network (l : LockId) (es : List TraceEvent) (d : ℤ) :
    netWhileHeldFrom l (TraceEvent.networkEv :: es) d =
      (decide (0 < d) || netWhileHeldFrom l es d) := rfl

theorem netFrom_cons_lock (l l2 : LockId) (es : List TraceEvent) (d : ℤ) :
    netWhileHeldFrom l (TraceEvent.lockEv l2 :: es) d =
      netWhileHeldFrom l es (d + heldDelta l (TraceEvent.lockEv l2)) := rfl

theorem netFrom_cons_unlock (l l2 : LockId) (es : List TraceEvent) (d : ℤ) :
    netWhileHeldFrom l (TraceEvent.unlockEv l2 :: es) d =
      netWhileHeldFrom l es (d + heldDelta l (TraceEvent.unlockEv l2)) := rfl

theorem netFrom_append (l : LockId) (t1 t2 : List TraceEvent) (d : ℤ) :
    netWhileHeldFrom l (t1 ++ t2) d =
      (netWhileHeldFrom l t1 d || netWhileHeldFrom l t2 (d + tDelta l t1)) := by
  induction t1 generalizing d with
  | nil => simp [netWhileHeldFrom, tDelta]
  | cons e rest ih =>
    cases e with
    | networkEv =>
      rw [List.cons_append, netFrom_cons_network, netFrom_cons_network, ih,
        tDelta_cons]
      simp [heldDelta, Bool.or_assoc]
    | lockEv l2 =>
      rw [List.cons_append, netFrom_cons_lock, netFrom_cons_lock, ih,
        tDelta_cons, add_assoc]
    | unlockEv l2 =>
      rw [List.cons_append, netFrom_cons_unlock, netFrom_cons_unlock, ih,
        tDelta_cons, add_assoc]

theorem chunkOK_append (l : LockId) (t1 t2 : List TraceEvent)
    (h1 : chunkOK l t1) (h2 : chunkOK l t2) : chunkOK l (t1 ++ t2) := by
  constructor
  · rw [tDelta_append, h1.1, h2.1]
    norm_num
  · rw [netFrom_append, h1.1, h1.2]
    simpa using h2.2

theorem chunkOK_nil (l : LockId) : chunkOK l [] := ⟨rfl, rfl⟩

/-- Every control path of `check_market_result_cached` succeeds, and its
event trace is a well-bracketed fragment for every lock: in particular the
market-cache lock is always released before the network query. -/
theorem cmrc_shape (gm : GetMarket) (now : ℕ)
    (cache : List (String × CachedMarketData)) (cid tid : String) :
    ∃ r c e, check_market_result_cached gm now cache cid tid =
        Except.ok (r, c, e) ∧ (∀ l : LockId, chunkOK l e) := by
  simp only [check_market_result_cached]
  split
  · split
    · exact ⟨_, _, _, rfl, fun l => by cases l <;> decide⟩
    · exact ⟨_, _, _, rfl, fun l => by cases l <;> decide⟩
  · split
    · split
      · exact ⟨_, _, _, rfl, fun l => by cases l <;> decide⟩
      · exact ⟨_, _, _, rfl, fun l => by cases l <;> decide⟩
    · exact ⟨_, _, _, rfl, fun l => by cases l <;> decide⟩

/-- The order placements of `sell_winning_tokens` are a well-bracketed
fragment for every lock (they take none). -/
theorem sellEvents_chunkOK (l : LockId) (ew bw : Bool) :
    chunkOK l (sellEvents ew bw) := by
  cases ew <;> cases bw <;> cases l <;> decide

/-- Lemma: `sweepLoop` never returns an error. -/
theorem sweepLoop_isOk (gm : GetMarket) (now : ℕ) (sim : Bool)
    (l : List (String × PendingTrade)) (acc : SweepAccum) :
    ∃ acc2, sweepLoop gm now sim l acc = Except.ok acc2 := by
  induction l generalizing acc with
  | nil => exact ⟨acc, rfl⟩
  | cons kv rest ih =>
    obtain ⟨k, t⟩ := kv
    simp only [sweepLoop]
    by_cases hage : now - t.timestamp < 14 * 60
    · rw [if_pos hage]
      exact ih acc
    · rw [if_neg hage]
      obtain ⟨r1, c1, e1, heq1, -⟩ :=
        cmrc_shape gm now acc.cache t.eth_condition_id t.eth_token_id
      simp only [heq1]
      obtain ⟨r2, c2, e2, heq2, -⟩ :=
        cmrc_shape gm now c1 t.btc_condition_id t.btc_token_id
      simp only [heq2]
      by_cases hclosed : (r1.1 && r2.1) = true
      · rw [if_pos hclosed]
        exact ih _
      · rw [if_neg hclosed]
        exact ih _

/-- Lemma: `check_pending_trades` never returns an error. -/
theorem check_pending_trades_isOk (gm : GetMarket) (now : ℕ) (sim : Bool)
    (s : TraderState) :
    ∃ res, check_pending_trades gm now sim s = Except.ok res := by
  obtain ⟨acc2, hacc⟩ := sweepLoop_isOk gm now sim s.pending_trades
    { to_remove := [], cache := s.market_cache
      total_profit := s.total_profit, queries := [], events := [] }
  have heq : check_pending_trades gm now sim s = Except.ok
      { state :=
          { s with
            total_profit := acc2.total_profit
            market_cache := acc2.cache
            pending_trades :=
              (s.pending_trades.filter fun kv => ¬ acc2.to_remove.contains kv.1) }
        queries := acc2.queries
        events := [TraceEvent.lockEv LockId.pendingTrades] ++ acc2.events ++
          [TraceEvent.unlockEv LockId.pendingTrades] } := by
    unfold check_pending_trades
    rw [hacc]
  exact ⟨_, heq⟩

/-- Processing a sweep over trades that are all young for a given key
leaves that key unmarked for removal and unqueried. -/
theorem sweepLoop_young (gm : GetMarket) (now : ℕ) (sim : Bool)
    (l : List (String × PendingTrade)) (key : String) (acc : SweepAccum)
    (hrem : ¬ key ∈ acc.to_remove)
    (hq : ∀ cid, ¬ (key, cid) ∈ acc.queries)
    (hl : ∀ t2, (key, t2) ∈ l → now - t2.timestamp < 14 * 60) :
    ∃ acc2, sweepLoop gm now sim l acc = Except.ok acc2 ∧
      ¬ key ∈ acc2.to_remove ∧ ∀ cid, ¬ (key, cid) ∈ acc2.queries := by
  revert hrem hq hl
  induction l generalizing acc with
  | nil =>
    intro hrem hq _
    exact ⟨acc, rfl, hrem, hq⟩
  | cons kv rest ih =>
    intro hrem hq hl
    obtain ⟨k, t⟩ := kv
    simp only [sweepLoop]
    by_cases hage : now - t.timestamp < 14 * 60
    · rw [if_pos hage]
      exact ih acc hrem hq fun t2 ht2 => hl t2 (List.mem_cons_of_mem _ ht2)
    · rw [if_neg hage]
      have hk : ¬ k = key := by
        intro hkk
        subst hkk
        exact hage (hl t (List.mem_cons_self _ _))
      obtain ⟨r1, c1, e1, heq1, -⟩ :=
        cmrc_shape gm now acc.cache t.eth_condition_id t.eth_token_id
      simp only [heq1]
      obtain ⟨r2, c2, e2, heq2, -⟩ :=
        cmrc_shape gm now c1 t.btc_condition_id t.btc_token_id
      simp only [heq2]
      have hrem2 : ¬ key ∈ acc.to_remove ++ [k] := by
        intro hmem
        rcases List.mem_append.mp hmem with h | h
        · exact hrem h
        · rw [List.mem_singleton] at h
          exact hk h.symm
      have hq2 : ∀ cid, ¬ (key, cid) ∈ acc.queries ++
          [(k, t.eth_condition_id), (k, t.btc_condition_id)] := by
        intro cid hmem
        rcases List.mem_append.mp hmem with h | h
        · exact hq cid h
        · simp only [List.mem_cons, List.not_mem_nil, or_false,
            List.mem_singleton] at h
          rcases h with h | h
          · exact hk (congrArg Prod.fst h).symm
          · exact hk (congrArg Prod.fst h).symm
      by_cases hclosed : (r1.1 && r2.1) = true
      · rw [if_pos hclosed]
        exact ih _ hrem2 hq2 fun t2 ht2 => hl t2 (List.mem_cons_of_mem _ ht2)
      · rw [if_neg hclosed]
        exact ih _ hrem hq2 fun t2 ht2 => hl t2 (List.mem_cons_of_mem _ ht2)

/-- C6: a pending trade younger than 14 minutes is never checked for
resolution by `check_pending_trades`: no market-status lookup is issued
on its behalf, it is not settled, and it stays in the pending map
unchanged — whatever the market oracle would answer. -/
theorem young_trade_not_checked (gm : GetMarket) (now : ℕ) (sim : Bool)
    (s : TraderState) (key : String) (trade : PendingTrade)
    (hmem : (key, trade) ∈ s.pending_trades)
    (hnodup : (s.pending_trades.map Prod.fst).Nodup)
    (hyoung : now - trade.timestamp < 14 * 60) :
    ∃ res, check_pending_trades gm now sim s = Except.ok res ∧
      (key, trade) ∈ res.state.pending_trades ∧
      ∀ cid, ¬ (key, cid) ∈ res.queries := by
  have hl : ∀ t2, (key, t2) ∈ s.pending_trades → now - t2.timestamp < 14 * 60 := by
    intro t2 ht2
    rw [mem_eq_of_nodup_keys key t2 trade s.pending_trades hnodup ht2 hmem]
    exact hyoung
  obtain ⟨acc2, heq, hrem2, hq2⟩ := sweepLoop_young gm now sim s.pending_trades key
    { to_remove := [], cache := s.market_cache
      total_profit := s.total_profit, queries := [], events := [] }
    (List.not_mem_nil key) (fun cid => List.not_mem_nil (key, cid)) hl
  have heqc : check_pending_trades gm now sim s = Except.ok
      { state :=
          { s with
            total_profit := acc2.total_profit
            market_cache := acc2.cache
            pending_trades :=
              (s.pending_trades.filter fun kv => ¬ acc2.to_remove.contains kv.1) }
        queries := acc2.queries
        events := [TraceEvent.lockEv LockId.pendingTrades] ++ acc2.events ++
          [TraceEvent.unlockEv LockId.pendingTrades] } := by
    unfold check_pending_trades
    rw [heq]
  refine ⟨_, heqc, ?_, hq2⟩
  apply List.mem_filter.mpr
  refine ⟨hmem, ?_⟩
  simp only [decide_eq_true_eq]
  intro hcont
  exact hrem2 (List.elem_iff.mp hcont)

/-- Closed witness for `young_trade_not_checked`: a 100-second-old trade
is left alone even by a failing oracle. -/
theorem young_trade_not_checked_witness :
    ∃ res, check_pending_trades (fun _ => Except.error "offline") 100 true
        { total_profit := 0, trades_executed := 0,
          pending_trades := [("k",
            { eth_token_id := "ta", btc_token_id := "tb",
              eth_condition_id := "ca", btc_condition_id := "cb",
              investment_amount := 75, units := 100, timestamp := 0 })],
          market_cache := [] } = Except.ok res ∧
      ("k", { eth_token_id := "ta", btc_token_id := "tb",
              eth_condition_id := "ca", btc_condition_id := "cb",
              investment_amount := 75, units := 100,
              timestamp := 0 : PendingTrade }) ∈ res.state.pending_trades ∧
      ∀ cid, ¬ ("k", cid) ∈ res.queries :=
  young_trade_not_checked (fun _ => Except.error "offline") 100 true
    { total_profit := 0, trades_executed := 0,
      pending_trades := [("k",
        { eth_token_id := "ta", btc_token_id := "tb",
          eth_condition_id := "ca", btc_condition_id := "cb",
          investment_amount := 75, units := 100, timestamp := 0 })],
      market_cache := [] }
    "k"
    { eth_token_id := "ta", btc_token_id := "tb",
      eth_condition_id := "ca", btc_condition_id := "cb",
      investment_amount := 75, units := 100, timestamp := 0 }
    (List.mem_cons_self _ _) (by decide) (by decide)

theorem cacheFresh_none (now : ℕ) (cache : List (String × CachedMarketData))
    (cid : String)
    (hmiss : ∀ c, alookup cid cache = some c → 60 ≤ now - c.cached_at) :
    cacheFresh now cache cid = none := by
  simp only [cacheFresh]
  split
  · rename_i c hl
    rw [if_neg (not_lt.mpr (hmiss c hl))]
  · rfl

/-- C7: on a cache miss (no entry, or an entry at least 60 seconds old)
with a failing Price Source query, the cached lookup answers
`(closed := false, winner := false)` inside `Ok` — no error is
propagated — and `check_pending_trades` never returns an error at all,
so the sweep retries on the next cycle. -/
theorem api_failure_degrades (gm : GetMarket) (now : ℕ)
    (cache : List (String × CachedMarketData)) (condition_id token_id msg : String)
    (hmiss : ∀ c, alookup condition_id cache = some c → 60 ≤ now - c.cached_at)
    (herr : gm condition_id = Except.error msg) :
    check_market_result_cached gm now cache condition_id token_id =
      Except.ok ((false, false), cache,
        [TraceEvent.lockEv LockId.marketCache,
         TraceEvent.unlockEv LockId.marketCache, TraceEvent.networkEv])
    ∧ (∀ (gm2 : GetMarket) (now2 : ℕ) (sim : Bool) (s : TraderState),
        ∃ res, check_pending_trades gm2 now2 sim s = Except.ok res) := by
  constructor
  · simp only [check_market_result_cached,
      cacheFresh_none now cache condition_id hmiss, herr]
  · intro gm2 now2 sim s
    exact check_pending_trades_isOk gm2 now2 sim s

/-- Closed witness for `api_failure_degrades`: empty cache and an
offline Price Source. -/
theorem api_failure_degrades_witness :
    check_market_result_cached (fun _ => Except.error "offline") 0 [] "cond" "tok" =
      Except.ok ((false, false), [],
        [TraceEvent.lockEv LockId.marketCache,
         TraceEvent.unlockEv LockId.marketCache, TraceEvent.networkEv]) :=
  (api_failure_degrades (fun _ => Except.error "offline") 0 [] "cond" "tok"
    "offline" (fun _ hc => nomatch hc) rfl).1

/-- The sweep loop only appends well-bracketed fragments to the event
accumulator. -/
theorem sweepLoop_chunkOK (gm : GetMarket) (now : ℕ) (sim : Bool)
    (l : List (String × PendingTrade)) (lk : LockId) (acc acc2 : SweepAccum)
    (hok : sweepLoop gm now sim l acc = Except.ok acc2)
    (hacc : chunkOK lk acc.events) : chunkOK lk acc2.events := by
  revert hok hacc
  induction l generalizing acc with
  | nil =>
    intro hok hacc
    cases hok
    exact hacc
  | cons kv rest ih =>
    intro hok hacc
    obtain ⟨k, t⟩ := kv
    simp only [sweepLoop] at hok
    by_cases hage : now - t.timestamp < 14 * 60
    · rw [if_pos hage] at hok
      exact ih acc hok hacc
    · rw [if_neg hage] at hok
      obtain ⟨r1, c1, e1, heq1, hch1⟩ :=
        cmrc_shape gm now acc.cache t.eth_condition_id t.eth_token_id
      simp only [heq1] at hok
      obtain ⟨r2, c2, e2, heq2, hch2⟩ :=
        cmrc_shape gm now c1 t.btc_condition_id t.btc_token_id
      simp only [heq2] at hok
      by_cases hclosed : (r1.1 && r2.1) = true
      · rw [if_pos hclosed] at hok
        refine ih _ hok ?_
        refine chunkOK_append lk _ _ (chunkOK_append lk _ _ ?_ ?_) ?_
        · exact chunkOK_append lk _ _
            (chunkOK_append lk _ _ hacc (hch1 lk)) (hch2 lk)
        · cases hsim : sim
          · simp only [Bool.false_eq_true, if_false]
            exact sellEvents_chunkOK lk r1.2 r2.2
          · simp only [if_true]
            exact chunkOK_nil lk
        · cases lk <;> decide
      · rw [if_neg hclosed] at hok
        refine ih _ hok ?_
        exact chunkOK_append lk _ _
          (chunkOK_append lk _ _ hacc (hch1 lk)) (hch2 lk)

/-- A trace bracketed by the pending-trades lock performs no network call
while holding any *other* lock, provided its interior is well
bracketed. -/
theorem networkWhileHeld_bracket (lk : LockId)
    (hne : ¬ LockId.pendingTrades = lk)
    (tr : List TraceEvent) (h : chunkOK lk tr) :
    networkWhileHeld lk ([TraceEvent.lockEv LockId.pendingTrades] ++ tr ++
      [TraceEvent.unlockEv LockId.pendingTrades]) = false := by
  show netWhileHeldFrom lk _ 0 = false
  rw [List.append_assoc, List.singleton_append, netFrom_cons_lock,
    netFrom_append]
  have hd : (0 : ℤ) + heldDelta lk (TraceEvent.lockEv LockId.pendingTrades)
      = 0 := by
    simp [heldDelta, hne]
  rw [hd, h.2]
  simp [netWhileHeldFrom]

/-- C8 (amended): the market-cache, total-profit and trade-counter locks
are never held across a network call — in the sweep's full event trace
and in `check_market_result_cached`'s own trace — and `execute_real_trade`
and `simulate_trade` perform no network call under any lock.  (The
pending-trades map lock, by contrast, *is* held across the sweep's
market-status lookups; see the counterexample.) -/
theorem locks_released_before_network (gm : GetMarket) (now : ℕ) (sim : Bool)
    (s : TraderState) :
    (∀ res, check_pending_trades gm now sim s = Except.ok res →
      networkWhileHeld LockId.marketCache res.events = false ∧
      networkWhileHeld LockId.totalProfit res.events = false ∧
      networkWhileHeld LockId.tradesExecuted res.events = false)
    ∧ (∀ (gm2 : GetMarket) (now2 : ℕ) (cache : List (String × CachedMarketData))
        (cid tid : String) r c e,
        check_market_result_cached gm2 now2 cache cid tid = Except.ok (r, c, e) →
        networkWhileHeld LockId.marketCache e = false)
    ∧ (∀ lk, networkWhileHeld lk execute_real_trade_events = false)
    ∧ (∀ lk, networkWhileHeld lk simulate_trade_events = false) := by
  refine ⟨?_, ?_, fun lk => by cases lk <;> decide,
    fun lk => by cases lk <;> decide⟩
  · intro res hok
    obtain ⟨acc2, hacc⟩ := sweepLoop_isOk gm now sim s.pending_trades
      { to_remove := [], cache := s.market_cache
        total_profit := s.total_profit, queries := [], events := [] }
    have hch : ∀ lk, chunkOK lk acc2.events := fun lk =>
      sweepLoop_chunkOK gm now sim s.pending_trades lk _ acc2 hacc (chunkOK_nil lk)
    unfold check_pending_trades at hok
    rw [hacc] at hok
    cases hok
    exact ⟨networkWhileHeld_bracket _ (by decide) _ (hch _),
      networkWhileHeld_bracket _ (by decide) _ (hch _),
      networkWhileHeld_bracket _ (by decide) _ (hch _)⟩
  · intro gm2 now2 cache cid tid r c e hok
    obtain ⟨r2, c2, e2, heq, hch⟩ := cmrc_shape gm2 now2 cache cid tid
    rw [hok] at heq
    cases heq
    exact (hch LockId.marketCache).2

/-- Closed witness for `locks_released_before_network` on the empty
pending map. -/
theorem locks_released_before_network_witness :
    networkWhileHeld LockId.marketCache
        [TraceEvent.lockEv LockId.pendingTrades,
         TraceEvent.unlockEv LockId.pendingTrades] = false ∧
      networkWhileHeld LockId.totalProfit
        [TraceEvent.lockEv LockId.pendingTrades,
         TraceEvent.unlockEv LockId.pendingTrades] = false ∧
      networkWhileHeld LockId.tradesExecuted
        [TraceEvent.lockEv LockId.pendingTrades,
         TraceEvent.unlockEv LockId.pendingTrades] = false :=
  (locks_released_before_network (fun _ => Except.error "offline") 0 true
    { total_profit := 0, trades_executed := 0,
      pending_trades := [], market_cache := [] }).1
    { state := { total_profit := 0, trades_executed := 0, pending_trades := [], market_cache := [] },
      queries := [],
      events := [TraceEvent.lockEv LockId.pendingTrades,
        TraceEvent.unlockEv LockId.pendingTrades] }
    rfl

/-- C8 counterexample: with one 14-minute-old pending trade,
`check_pending_trades` performs its market-status network lookups while
the pending-trades map lock is held (the guard taken at trader.rs line 43
lives until the end of the function, across the awaits at lines 68-69) —
refuting "no network operation is performed while holding a lock" as
stated. -/
theorem sweep_networks_under_pending_lock :
    ((check_pending_trades (fun _ => Except.error "offline") 840 true
        { total_profit := 0, trades_executed := 0,
          pending_trades := [("k",
            { eth_token_id := "ta", btc_token_id := "tb",
              eth_condition_id := "ca", btc_condition_id := "cb",
              investment_amount := 75, units := 100, timestamp := 0 })],
          market_cache := [] }).toOption.map
      fun res => networkWhileHeld LockId.pendingTrades res.events) =
      some true := by
  decide

example :
    (check_arbitrage (1/100)
      { token_id := "a", bid := none, ask := some (7/10) }
      { token_id := "b", bid := none, ask := some (2/10) } "c1" "c2").isSome
      = true := by decide

example :
    check_arbitrage (1/100)
      { token_id := "a", bid := none, ask := some (5/10) }
      { token_id := "b", bid := none, ask := some (4/10) } "c1" "c2"
      = none := by decide
